import Mathlib

/-
Verification development for a hol-to-ics calendar converter
(source: src/hol2ics.py).  Strings are modelled as `List Char`;
the file content is the text as seen after universal-newline
translation.  Run-varying state (uuid4 and the wall clock) is
modelled by oracle functions `Nat → List Char` indexed by the
iteration count of the writer loop.
-/

namespace Hol2Ics

/-- Character list of a string literal. -/
def str (s : String) : List Char := s.toList

/-- ASCII whitespace as matched by the regex class and by strip. -/
def isWS (c : Char) : Bool :=
  c = ' ' || c = '\t' || c = '\n' || c = '\r' || c = '\x0b' || c = '\x0c'

/-- Python-style split on a one-character separator: `"a,b".split(",")`. -/
def splitOnChar (sep : Char) : List Char → List (List Char)
  | [] => [[]]
  | c :: cs =>
    if c = sep then [] :: splitOnChar sep cs
    else
      match splitOnChar sep cs with
      | [] => [[c]]
      | p :: ps => (c :: p) :: ps

/-- Python `str.strip()`: drop surrounding whitespace. -/
def stripWS (l : List Char) : List Char :=
  ((l.dropWhile isWS).reverse.dropWhile isWS).reverse

/-- Numeric value of a digit string. -/
def digitsVal (l : List Char) : Nat :=
  l.foldl (fun a c => 10 * a + (c.toNat - 48)) 0

/-- Gregorian leap-year rule, as used by datetime's calendar validation. -/
def isLeap (y : Nat) : Bool :=
  (y % 4 = 0 && y % 100 ≠ 0) || y % 400 = 0

/-- Number of days of month `m` in year `y`. -/
def daysInMonth (y m : Nat) : Nat :=
  if m = 2 then (if isLeap y then 29 else 28)
  else if m = 4 || m = 6 || m = 9 || m = 11 then 30
  else 31

deriving instance DecidableEq for Except

/-- A timezone-less calendar date, the payload of `datetime` as used here. -/
structure HDate where
  year : Nat
  month : Nat
  day : Nat
deriving DecidableEq

/-- Error kinds raised by the converter (all `ValueError` in the source). -/
inductive ConvErr where
  | malformedHeader (msg : List Char)
  | malformedRecord
  | invalidDate
deriving DecidableEq

/-- Model of `datetime.datetime.strptime(s, "%Y/%m/%d")`: the year is
exactly four digits, month and day one or two digits, the separators are
literal slashes with nothing around them, and the values must form a
valid calendar date with year at least 1. -/
def parseDate (s : List Char) : Option HDate :=
  match splitOnChar '/' s with
  | [ys, ms, ds] =>
    if ys.length = 4 ∧ ys.all Char.isDigit ∧
        (ms.length = 1 ∨ ms.length = 2) ∧ ms.all Char.isDigit ∧
        (ds.length = 1 ∨ ds.length = 2) ∧ ds.all Char.isDigit then
      let y := digitsVal ys
      let m := digitsVal ms
      let d := digitsVal ds
      if 1 ≤ y ∧ 1 ≤ m ∧ m ≤ 12 ∧ 1 ≤ d ∧ d ≤ daysInMonth y m then
        some ⟨y, m, d⟩
      else none
    else none
  | _ => none

/-- `line_to_event_tuple` (src/hol2ics.py lines 16-28):
`day_title, date_str = line.split(",")` followed by
`strptime(date_str.strip(), "%Y/%m/%d")`.  The tuple unpacking raises
unless the split yields exactly two fragments. -/
def line_to_event_tuple (line : List Char) :
    Except ConvErr (List Char × HDate) :=
  match splitOnChar ',' line with
  | [day_title, date_str] =>
    match parseDate (stripWS date_str) with
    | some d => Except.ok (day_title, d)
    | none => Except.error ConvErr.invalidDate
  | _ => Except.error ConvErr.malformedRecord

/-- Match `\]\s*[0-9]+` at the head of the list: a closing bracket, then
greedy optional whitespace, then a non-empty greedy digit run (the count
capture group). -/
def tailMatch : List Char → Option (List Char)
  | [] => none
  | c :: rest =>
    if c = ']' then
      let d := (rest.dropWhile isWS).takeWhile Char.isDigit
      if d.isEmpty then none else some d
    else none

/-- Backtracking match of `(.+)\]\s*([0-9]+)` against the list: the
greedy `.+` (which cannot match a newline) prefers the longest title, so
the title extends to the last `]` that is still followed by optional
whitespace and at least one digit.  Returns the two capture groups. -/
def headerSplit : List Char → Option (List Char × List Char)
  | [] => none
  | c :: cs =>
    if c = '\n' then none
    else
      match headerSplit cs with
      | some (t, d) => some (c :: t, d)
      | none =>
        match tailMatch cs with
        | some d => some ([c], d)
        | none => none

/-- `re.match(r"\[(?P<title>.+)\]\s*(?P<count>[0-9]+)", s)`: anchored at
the start, trailing junk permitted. -/
def reMatchHeader : List Char → Option (List Char × List Char)
  | [] => none
  | c :: rest => if c = '[' then headerSplit rest else none

/-- `handler.readline()`: the first line, keeping its newline. -/
def firstLine : List Char → List Char
  | [] => []
  | c :: cs => if c = '\n' then ['\n'] else c :: firstLine cs

/-- Content remaining after the first line. -/
def dropFirstLine : List Char → List Char
  | [] => []
  | c :: cs => if c = '\n' then cs else dropFirstLine cs

/-- `handler.readlines()`: split into lines, each keeping its newline;
a final line without a newline is kept, an empty tail contributes
nothing. -/
def splitKeepEnds : List Char → List (List Char)
  | [] => []
  | c :: cs =>
    if c = '\n' then ['\n'] :: splitKeepEnds cs
    else
      match splitKeepEnds cs with
      | [] => [[c]]
      | p :: ps => (c :: p) :: ps

/-- The fixed message of the header `ValueError` in the source. -/
def headerErrorMsg : List Char := str "Unable to find header in given hol file"

/-- `read_hol_file` (src/hol2ics.py lines 69-97): match the header
pattern against the first line; on failure raise the fixed-message
value error; on success return the title and the remaining lines (the
count capture is bound but never used).  Record parsing is deferred
(lazy `map`), so the raw lines are returned. -/
def read_hol_file (file : List Char) :
    Except ConvErr (List Char × List (List Char)) :=
  match reMatchHeader (firstLine file) with
  | some (_title, _count) => Except.ok (_title, splitKeepEnds (dropFirstLine file))
  | none => Except.error (ConvErr.malformedHeader headerErrorMsg)

/-- CRLF line terminator. -/
def CRLF : List Char := str "\r\n"

/-- Left-pad a number with zeros to the given width (strftime `%Y`,
`%m`, `%d` on the parsed dates). -/
def fmtNat (width n : Nat) : List Char :=
  let ds := Nat.toDigits 10 n
  List.replicate (width - ds.length) '0' ++ ds

/-- `start_date.strftime("%Y%m%d")`. -/
def fmtDate (d : HDate) : List Char :=
  fmtNat 4 d.year ++ fmtNat 2 d.month ++ fmtNat 2 d.day

/-- The six lines of one VEVENT block (src/hol2ics.py lines 49-56). -/
def event_lines (uid stamp name : List Char) (d : HDate) : List (List Char) :=
  [str "BEGIN:VEVENT",
   str "UID:" ++ uid,
   str "DTSTAMP:" ++ stamp,
   str "DTSTART;VALUE=DATE:" ++ fmtDate d,
   str "SUMMARY:" ++ name,
   str "END:VEVENT"]

/-- Observable effects of the writer, used to state when the
destination file is opened relative to record validation. -/
inductive Eff where
  | parseRecord
  | openDest
  | writeDoc
deriving DecidableEq

/-- The `for name, start_date in events` loop of `write_ics_file`:
consuming the lazy map parses each record in turn; the first parse
failure propagates and the accumulated lines are discarded.  `i` counts
loop iterations and indexes the uuid4/now oracles. -/
def writer_loop (u s : Nat → List Char) :
    Nat → List (Except ConvErr (List Char × HDate)) →
    List Eff × Except ConvErr (List (List Char))
  | _, [] => ([], Except.ok [])
  | _, Except.error e :: _ => ([Eff.parseRecord], Except.error e)
  | i, Except.ok (name, d) :: rest =>
    let r := writer_loop u s (i + 1) rest
    (Eff.parseRecord :: r.1,
      match r.2 with
      | Except.ok ls => Except.ok (event_lines (u i) (s i) name d ++ ls)
      | Except.error e => Except.error e)

/-- The three opening lines of the calendar (src/hol2ics.py lines 38-42). -/
def calendarHeader (title : List Char) : List (List Char) :=
  [str "BEGIN:VCALENDAR",
   str "VERSION:2.0",
   str "PRODID:-//" ++ title ++ str "//EN"]

/-- `"\r\n".join(lines)`. -/
def joinCRLF : List (List Char) → List Char
  | [] => []
  | [l] => l
  | l :: rest => l ++ CRLF ++ joinCRLF rest

/-- `write_ics_file` (src/hol2ics.py lines 31-66): build the header
lines, run the event loop, append the footer, and only then open the
destination and write the joined document.  Returns the effect trace
and the resulting line list (the document is their CRLF join). -/
def write_ics_file (u s : Nat → List Char)
    (events : List (Except ConvErr (List Char × HDate))) (title : List Char) :
    List Eff × Except ConvErr (List (List Char)) :=
  let r := writer_loop u s 0 events
  match r.2 with
  | Except.error e => (r.1, Except.error e)
  | Except.ok evLines =>
    (r.1 ++ [Eff.openDest, Eff.writeDoc],
     Except.ok (calendarHeader title ++ evLines ++ [str "END:VCALENDAR"]))

/-- The whole pipeline at the line level: `read_hol_file` then
`write_ics_file` over the lazily mapped record lines. -/
def convertLines (u s : Nat → List Char) (file : List Char) :
    List Eff × Except ConvErr (List (List Char)) :=
  match read_hol_file file with
  | Except.error e => ([], Except.error e)
  | Except.ok (title, recLines) =>
    write_ics_file u s (recLines.map line_to_event_tuple) title

/-- The document written to the destination: the CRLF join of the lines. -/
def convert (u s : Nat → List Char) (file : List Char) :
    List Eff × Except ConvErr (List Char) :=
  let r := convertLines u s file
  (r.1, r.2.map joinCRLF)

/-- A filesystem path reduced to the parts the entry point inspects:
everything before the extension, and the extension itself
(`pathlib.Path.suffix`). -/
structure PathM where
  stem : List Char
  ext : List Char
deriving DecidableEq

/-- `Path.with_suffix`: replace the extension. -/
def with_suffix (p : PathM) (s : List Char) : PathM := ⟨p.stem, s⟩

/-- The `__main__` argument checks (src/hol2ics.py lines 118-126),
faithful to the source: the source path must end in `.hol`; when a
destination is given the code tests `args.source_path.suffix != ".ics"`
(not the destination's suffix) before accepting it; otherwise the
destination is the source with its suffix replaced by `.ics`. -/
def main_destination (source : PathM) (dest : Option PathM) :
    Except (List Char) PathM :=
  if source.ext ≠ str ".hol" then
    Except.error (str "Source file has to end with the hol extension")
  else
    match dest with
    | some d =>
      if source.ext ≠ str ".ics" then
        Except.error (str "Destination file has to end with the ics extension")
      else Except.ok d
    | none => Except.ok (with_suffix source (str ".ics"))

/-- Document shape stated from the spec: fixed preamble, one VEVENT
block per record in input order, then the closing line. -/
def icsSpecLines (u s : Nat → List Char)
    (events : List (List Char × HDate)) (title : List Char) :
    List (List Char) :=
  [str "BEGIN:VCALENDAR", str "VERSION:2.0",
   str "PRODID:-//" ++ title ++ str "//EN"]
    ++ ((List.enumFrom 0 events).map
          (fun p => event_lines (u p.1) (s p.1) p.2.1 p.2.2)).flatten
    ++ [str "END:VCALENDAR"]

/-- Substring test (`needle in haystack`). -/
def containsSub (needle : List Char) : List Char → Bool
  | [] => needle.isEmpty
  | c :: t => needle.isPrefixOf (c :: t) || containsSub needle t

/-- Both lines are UID lines, or both are DTSTAMP lines. -/
def uidOrStamp (l1 l2 : List Char) : Bool :=
  ((str "UID:").isPrefixOf l1 && (str "UID:").isPrefixOf l2) ||
  ((str "DTSTAMP:").isPrefixOf l1 && (str "DTSTAMP:").isPrefixOf l2)

/-- The two line lists agree line by line except that corresponding UID
lines and corresponding DTSTAMP lines may differ. -/
def sameExceptUidDtstamp : List (List Char) → List (List Char) → Bool
  | [], [] => true
  | l1 :: r1, l2 :: r2 =>
    (l1 == l2 || uidOrStamp l1 l2) && sameExceptUidDtstamp r1 r2
  | _, _ => false

/-- A source file of the canonical header shape `[title]ws digits`
followed by a newline and the record lines. -/
def mkHolFile (title ws d body : List Char) : List Char :=
  '[' :: (title ++ (']' :: (ws ++ (d ++ ('\n' :: body)))))

/-- Concrete uuid4 oracle for examples. -/
def exU (n : Nat) : List Char := str "uid-" ++ Nat.toDigits 10 n

/-- Concrete wall-clock oracle for examples. -/
def exS (_ : Nat) : List Char := str "20250101T120000"

/-- Second concrete uuid4 oracle. -/
def exU2 (n : Nat) : List Char := str "vid-" ++ Nat.toDigits 10 n

/-- Second concrete wall-clock oracle. -/
def exS2 (_ : Nat) : List Char := str "20260202T130000"

/-- The end-to-end example file of the spec. -/
def exFile : List Char := str "[Test] 2\nA,2024/01/01\nB,2024/12/31"

/-- Its records. -/
def exEvents : List (List Char × HDate) :=
  [(str "A", ⟨2024, 1, 1⟩), (str "B", ⟨2024, 12, 31⟩)]

/-- Expected lines of the first example run. -/
def exLinesA : List (List Char) := icsSpecLines exU exS exEvents (str "Test")

/-- Expected lines of the second example run. -/
def exLinesB : List (List Char) := icsSpecLines exU2 exS2 exEvents (str "Test")

/-- Expected lines for the one-record count-variation example, first run. -/
def exCountLinesA : List (List Char) :=
  icsSpecLines exU exS [(str "A", ⟨2024, 1, 1⟩)] (str "T")

/-- Expected lines for the one-record count-variation example, second run. -/
def exCountLinesB : List (List Char) :=
  icsSpecLines exU2 exS2 [(str "A", ⟨2024, 1, 1⟩)] (str "T")

example : parseDate (str "2024/01/01") = some ⟨2024, 1, 1⟩ := by decide
example : parseDate (str "2024/13/40") = none := by decide
example : reMatchHeader (str "[Holidays 2024] 12\n") =
    some (str "Holidays 2024", str "12") := by decide
example : reMatchHeader (str "[T] 12 trailing junk\n") =
    some (str "T", str "12") := by decide
example : reMatchHeader (str "[a] 1] 2\n") = some (str "a] 1", str "2") := by
  decide
example : reMatchHeader (str "Holidays 2024 12\n") = none := by decide
example : line_to_event_tuple (str "A,2024/01/01,junk") =
    Except.error ConvErr.malformedRecord := by decide
example : (convertLines exU exS exFile).2 = Except.ok exLinesA := by decide
example : (convertLines exU exS (str "[T] 2\nA,2024/01/01\nBAD")).1 =
    [Eff.parseRecord, Eff.parseRecord] := by decide

theorem splitOnChar_ne_nil (sep : Char) (l : List Char) :
    splitOnChar sep l ≠ [] := by
  induction l with
  | nil => simp [splitOnChar]
  | cons c cs ih =>
    by_cases hc : c = sep
    · simp [splitOnChar, hc]
    · simp only [splitOnChar, if_neg hc]
      cases h : splitOnChar sep cs <;> simp

theorem length_splitOnChar (sep : Char) (l : List Char) :
    (splitOnChar sep l).length = l.count sep + 1 := by
  induction l with
  | nil => simp [splitOnChar]
  | cons c cs ih =>
    by_cases hc : c = sep
    · subst hc
      simp [splitOnChar, List.count_cons, ih]
    · cases h : splitOnChar sep cs with
      | nil => exact absurd h (splitOnChar_ne_nil sep cs)
      | cons p ps =>
        rw [h] at ih
        simp only [splitOnChar, if_neg hc, h, List.length_cons, List.count_cons]
        simp only [List.length_cons] at ih
        have : (sep == c) = false := by
          simp [beq_iff_eq]; exact fun e => hc e.symm
        simp [this, ih, hc]

theorem splitOnChar_no_sep {sep : Char} {l : List Char} (h : sep ∉ l) :
    splitOnChar sep l = [l] := by
  induction l with
  | nil => rfl
  | cons c cs ih =>
    have hc : c ≠ sep := fun e => h (by simp [e])
    have hcs : sep ∉ cs := fun m => h (by simp [m])
    simp [splitOnChar, if_neg hc, ih hcs]

theorem splitOnChar_first {sep : Char} {a : List Char} (b : List Char)
    (h : sep ∉ a) :
    splitOnChar sep (a ++ sep :: b) = a :: splitOnChar sep b := by
  induction a with
  | nil => simp [splitOnChar]
  | cons x a' ih =>
    have hx : x ≠ sep := fun e => h (by simp [e])
    have ha : sep ∉ a' := fun m => h (by simp [m])
    simp only [List.cons_append, splitOnChar, if_neg hx, List.append_eq, ih ha]

theorem firstLine_append {pre : List Char} (rest : List Char)
    (h : '\n' ∉ pre) : firstLine (pre ++ '\n' :: rest) = pre ++ ['\n'] := by
  induction pre with
  | nil => simp [firstLine]
  | cons c cs ih =>
    have hc : c ≠ '\n' := fun e => h (by simp [e])
    have hcs : '\n' ∉ cs := fun m => h (by simp [m])
    simp [firstLine, if_neg hc, ih hcs]

theorem dropFirstLine_append {pre : List Char} (rest : List Char)
    (h : '\n' ∉ pre) : dropFirstLine (pre ++ '\n' :: rest) = rest := by
  induction pre with
  | nil => simp [dropFirstLine]
  | cons c cs ih =>
    have hc : c ≠ '\n' := fun e => h (by simp [e])
    have hcs : '\n' ∉ cs := fun m => h (by simp [m])
    simp [dropFirstLine, if_neg hc, ih hcs]

theorem dropWhile_append_all {p : Char → Bool} {ws : List Char}
    (l : List Char) (h : ∀ c ∈ ws, p c = true) :
    List.dropWhile p (ws ++ l) = List.dropWhile p l := by
  induction ws with
  | nil => simp
  | cons c cs ih =>
    have hc : p c = true := h c (by simp)
    simp [List.dropWhile, hc, ih (fun x hx => h x (by simp [hx]))]

theorem takeWhile_append_all {p : Char → Bool} {d : List Char}
    (l : List Char) (h : ∀ c ∈ d, p c = true) :
    List.takeWhile p (d ++ l) = d ++ List.takeWhile p l := by
  induction d with
  | nil => simp
  | cons c cs ih =>
    have hc : p c = true := h c (by simp)
    simp [List.takeWhile, hc, ih (fun x hx => h x (by simp [hx]))]

theorem ws_not_digit {c : Char} (h : isWS c = true) :
    Char.isDigit c = false := by
  simp only [isWS, Bool.or_eq_true, decide_eq_true_eq] at h
  rcases h with ((((h | h) | h) | h) | h) | h <;> subst h <;> decide

theorem ws_ne_rbracket {c : Char} (h : isWS c = true) : c ≠ ']' := by
  simp only [isWS, Bool.or_eq_true, decide_eq_true_eq] at h
  rcases h with ((((h | h) | h) | h) | h) | h <;> subst h <;> decide

theorem digit_ne_rbracket {c : Char} (h : Char.isDigit c = true) :
    c ≠ ']' := by
  intro e; subst e; exact absurd h (by decide)

theorem digit_ne_newline {c : Char} (h : Char.isDigit c = true) :
    c ≠ '\n' := by
  intro e; subst e; exact absurd h (by decide)

theorem digit_not_ws {c : Char} (h : Char.isDigit c = true) :
    isWS c = false := by
  cases hw : isWS c
  · rfl
  · exact absurd h (by simp [ws_not_digit hw])

theorem tailMatch_nil : tailMatch [] = none := rfl

theorem tailMatch_cons_eq (c : Char) (rest : List Char) :
    tailMatch (c :: rest) =
      (if c = ']' then
        (if ((rest.dropWhile isWS).takeWhile Char.isDigit).isEmpty then none
         else some ((rest.dropWhile isWS).takeWhile Char.isDigit))
       else none) := rfl

theorem headerSplit_nil : headerSplit [] = none := rfl

theorem headerSplit_cons_eq (c : Char) (cs : List Char) :
    headerSplit (c :: cs) =
      (if c = '\n' then none
       else
         match headerSplit cs with
         | some (t, d) => some (c :: t, d)
         | none =>
           match tailMatch cs with
           | some d => some ([c], d)
           | none => none) := rfl

theorem tailMatch_cons_ne {c : Char} (l : List Char) (h : c ≠ ']') :
    tailMatch (c :: l) = none := by
  rw [tailMatch_cons_eq, if_neg h]

theorem tailMatch_append_none {pre : List Char} (post : List Char)
    (hne : pre ≠ []) (h : ∀ c ∈ pre, c ≠ ']') :
    tailMatch (pre ++ post) = none := by
  cases pre with
  | nil => exact absurd rfl hne
  | cons c cs =>
    rw [List.cons_append]
    exact tailMatch_cons_ne _ (h c (by simp))

theorem tailMatch_exact {ws d : List Char} (rest : List Char)
    (hws : ∀ c ∈ ws, isWS c = true) (hd : d ≠ [])
    (hdig : ∀ c ∈ d, Char.isDigit c = true) :
    tailMatch (']' :: (ws ++ (d ++ ('\n' :: rest)))) = some d := by
  cases d with
  | nil => exact absurd rfl hd
  | cons c0 ds =>
    have h0 : Char.isDigit c0 = true := hdig c0 (by simp)
    have hnl : Char.isDigit '\n' = false := by decide
    rw [tailMatch_cons_eq, if_pos rfl]
    rw [dropWhile_append_all _ hws]
    rw [show List.dropWhile isWS ((c0 :: ds) ++ '\n' :: rest)
        = (c0 :: ds) ++ '\n' :: rest by
      simp [List.dropWhile_cons, digit_not_ws h0]]
    rw [takeWhile_append_all _ hdig]
    simp [List.takeWhile_cons, hnl]

theorem tailMatch_isSome {ws d : List Char} (junk : List Char)
    (hws : ∀ c ∈ ws, isWS c = true) (hd : d ≠ [])
    (hdig : ∀ c ∈ d, Char.isDigit c = true) :
    (tailMatch (']' :: (ws ++ (d ++ junk)))).isSome = true := by
  cases d with
  | nil => exact absurd rfl hd
  | cons c0 ds =>
    have h0 : Char.isDigit c0 = true := hdig c0 (by simp)
    rw [tailMatch_cons_eq, if_pos rfl]
    rw [dropWhile_append_all _ hws]
    rw [show List.dropWhile isWS ((c0 :: ds) ++ junk) = (c0 :: ds) ++ junk by
      simp [List.dropWhile_cons, digit_not_ws h0]]
    rw [takeWhile_append_all _ hdig]
    simp

theorem tailMatch_some_shape {l c : List Char} (hc : tailMatch l = some c) :
    ∃ r, l = ']' :: r := by
  cases l with
  | nil => rw [tailMatch_nil] at hc; exact Option.noConfusion hc
  | cons x r =>
    by_cases hx : x = ']'
    · exact ⟨r, by rw [hx]⟩
    · rw [tailMatch_cons_ne _ hx] at hc; exact Option.noConfusion hc

theorem headerSplit_cons_newline (cs : List Char) :
    headerSplit ('\n' :: cs) = none := by
  rw [headerSplit_cons_eq, if_pos rfl]

theorem headerSplit_cons_of_some {x : Char} {cs t d : List Char}
    (hx : x ≠ '\n') (h : headerSplit cs = some (t, d)) :
    headerSplit (x :: cs) = some (x :: t, d) := by
  rw [headerSplit_cons_eq, if_neg hx, h]

theorem headerSplit_cons_of_none_some {x : Char} {cs d : List Char}
    (hx : x ≠ '\n') (h1 : headerSplit cs = none) (h2 : tailMatch cs = some d) :
    headerSplit (x :: cs) = some ([x], d) := by
  rw [headerSplit_cons_eq, if_neg hx, h1, h2]

theorem headerSplit_cons_of_none_none {x : Char} {cs : List Char}
    (hx : x ≠ '\n') (h1 : headerSplit cs = none) (h2 : tailMatch cs = none) :
    headerSplit (x :: cs) = none := by
  rw [headerSplit_cons_eq, if_neg hx, h1, h2]

theorem headerSplit_none {pre : List Char} (rest : List Char)
    (h : ∀ c ∈ pre, c ≠ ']') :
    headerSplit (pre ++ '\n' :: rest) = none := by
  induction pre with
  | nil => rw [List.nil_append]; exact headerSplit_cons_newline rest
  | cons x pre' ih =>
    rw [List.cons_append]
    by_cases hx : x = '\n'
    · rw [hx]; exact headerSplit_cons_newline _
    · have ih' := ih (fun c hc => h c (by simp [hc]))
      have ht : tailMatch (pre' ++ '\n' :: rest) = none := by
        cases pre' with
        | nil =>
          rw [List.nil_append]
          exact tailMatch_cons_ne _ (by decide)
        | cons y pre'' =>
          rw [List.cons_append]
          exact tailMatch_cons_ne _ (h y (by simp))
      exact headerSplit_cons_of_none_none hx ih' ht

theorem headerSplit_exact {a ws d : List Char} (rest : List Char)
    (ha : a ≠ []) (han : '\n' ∉ a)
    (hws : ∀ c ∈ ws, isWS c = true) (hd : d ≠ [])
    (hdig : ∀ c ∈ d, Char.isDigit c = true) :
    headerSplit (a ++ (']' :: (ws ++ (d ++ ('\n' :: rest)))))
      = some (a, d) := by
  induction a with
  | nil => exact absurd rfl ha
  | cons x a' ih =>
    have hx : x ≠ '\n' := fun e => han (by simp [e])
    cases a' with
    | nil =>
      have hpre : ∀ c ∈ ws ++ d, c ≠ ']' := by
        intro c hc
        rcases List.mem_append.mp hc with h1 | h1
        · exact ws_ne_rbracket (hws c h1)
        · exact digit_ne_rbracket (hdig c h1)
      have hprene : ws ++ d ≠ [] := fun e => hd (List.append_eq_nil.mp e).2
      have h2 : headerSplit (ws ++ (d ++ ('\n' :: rest))) = none := by
        have h5 := headerSplit_none rest hpre
        rwa [List.append_assoc] at h5
      have h3 : tailMatch (ws ++ (d ++ ('\n' :: rest))) = none := by
        have h5 := tailMatch_append_none ('\n' :: rest) hprene hpre
        rwa [List.append_assoc] at h5
      have h1 : headerSplit (']' :: (ws ++ (d ++ ('\n' :: rest)))) = none :=
        headerSplit_cons_of_none_none (by decide) h2 h3
      have h4 := tailMatch_exact rest hws hd hdig
      rw [List.cons_append, List.nil_append]
      exact headerSplit_cons_of_none_some hx h1 h4
    | cons y a'' =>
      have ih' := ih (by simp) (fun m => han (by simp [m]))
      rw [List.cons_append]
      exact headerSplit_cons_of_some hx ih'

theorem headerSplit_isSome {a : List Char} (tail : List Char)
    (ha : a ≠ []) (han : '\n' ∉ a)
    (ht : (tailMatch (']' :: tail)).isSome = true) :
    (headerSplit (a ++ (']' :: tail))).isSome = true := by
  induction a with
  | nil => exact absurd rfl ha
  | cons x a' ih =>
    have hx : x ≠ '\n' := fun e => han (by simp [e])
    cases a' with
    | nil =>
      rw [List.cons_append, List.nil_append]
      cases h1 : headerSplit (']' :: tail) with
      | some p =>
        obtain ⟨t, d⟩ := p
        rw [headerSplit_cons_of_some hx h1]
        rfl
      | none =>
        cases h2 : tailMatch (']' :: tail) with
        | some d =>
          rw [headerSplit_cons_of_none_some hx h1 h2]
          rfl
        | none => rw [h2] at ht; exact Bool.noConfusion ht
    | cons y a'' =>
      have ih' := ih (by simp) (fun m => han (by simp [m]))
      rw [List.cons_append]
      cases h1 : headerSplit ((y :: a'') ++ (']' :: tail)) with
      | none => rw [h1] at ih'; exact Bool.noConfusion ih'
      | some p =>
        obtain ⟨t, d⟩ := p
        rw [headerSplit_cons_of_some hx h1]
        rfl

theorem headerSplit_sound : ∀ {l t c : List Char},
    headerSplit l = some (t, c) →
    ∃ tail, l = t ++ (']' :: tail) ∧ t ≠ [] ∧ '\n' ∉ t ∧
      tailMatch (']' :: tail) = some c := by
  intro l
  induction l with
  | nil =>
    intro t c h
    rw [headerSplit_nil] at h
    exact Option.noConfusion h
  | cons x cs ih =>
    intro t c h
    by_cases hx : x = '\n'
    · rw [hx, headerSplit_cons_newline] at h
      exact Option.noConfusion h
    · cases h1 : headerSplit cs with
      | some p =>
        obtain ⟨t', d'⟩ := p
        rw [headerSplit_cons_of_some hx h1] at h
        injection h with hp
        rw [Prod.mk.injEq] at hp
        obtain ⟨ht, hc⟩ := hp
        subst ht
        subst hc
        obtain ⟨tail, e1, e2, e3, e4⟩ := ih h1
        refine ⟨tail, ?_, by simp, ?_, e4⟩
        · rw [List.cons_append, ← e1]
        · intro m
          rcases List.mem_cons.mp m with m1 | m1
          · exact hx m1.symm
          · exact e3 m1
      | none =>
        cases h2 : tailMatch cs with
        | some d =>
          rw [headerSplit_cons_of_none_some hx h1 h2] at h
          injection h with hp
          rw [Prod.mk.injEq] at hp
          obtain ⟨ht, hc⟩ := hp
          subst ht
          subst hc
          obtain ⟨r, hr⟩ := tailMatch_some_shape h2
          refine ⟨r, ?_, by simp, ?_, ?_⟩
          · rw [hr, List.cons_append, List.nil_append]
          · intro m
            rcases List.mem_cons.mp m with m1 | m1
            · exact hx m1.symm
            · exact absurd m1 (List.not_mem_nil _)
          · rw [← hr]; exact h2
        | none =>
          rw [headerSplit_cons_of_none_none hx h1 h2] at h
          exact Option.noConfusion h

theorem headerSplit_maximal : ∀ {l t c : List Char},
    headerSplit l = some (t, c) →
    ∀ t2 tail2, l = t2 ++ (']' :: tail2) → t2 ≠ [] → '\n' ∉ t2 →
      (tailMatch (']' :: tail2)).isSome = true → t2.length ≤ t.length := by
  intro l
  induction l with
  | nil =>
    intro t c h
    rw [headerSplit_nil] at h
    exact Option.noConfusion h
  | cons x cs ih =>
    intro t c h t2 tail2 e h2ne h2n ht2
    cases t2 with
    | nil => exact absurd rfl h2ne
    | cons z t2' =>
      rw [List.cons_append] at e
      injection e with exz ecs
      by_cases hx : x = '\n'
      · exact absurd (by rw [← exz, hx]; exact List.mem_cons_self _ _) h2n
      · cases h1 : headerSplit cs with
        | some p =>
          obtain ⟨t', d'⟩ := p
          rw [headerSplit_cons_of_some hx h1] at h
          injection h with hp
          rw [Prod.mk.injEq] at hp
          obtain ⟨ht, hc⟩ := hp
          subst ht
          cases t2' with
          | nil => simp
          | cons w t2'' =>
            have hmax := ih h1 (w :: t2'') tail2 ecs (by simp)
              (fun m => h2n (by simp [m])) ht2
            simp only [List.length_cons] at hmax ⊢
            omega
        | none =>
          cases h2 : tailMatch cs with
          | some d =>
            rw [headerSplit_cons_of_none_some hx h1 h2] at h
            injection h with hp
            rw [Prod.mk.injEq] at hp
            obtain ⟨ht, hc⟩ := hp
            subst ht
            cases t2' with
            | nil => simp
            | cons w t2'' =>
              have hs := headerSplit_isSome (a := w :: t2'') tail2 (by simp)
                (fun m => h2n (by simp [m])) ht2
              rw [← ecs, h1] at hs
              exact Bool.noConfusion hs
          | none =>
            rw [headerSplit_cons_of_none_none hx h1 h2] at h
            exact Option.noConfusion h

theorem firstLine_cons (c : Char) (cs : List Char) :
    firstLine (c :: cs) = if c = '\n' then ['\n'] else c :: firstLine cs := rfl

theorem dropFirstLine_cons (c : Char) (cs : List Char) :
    dropFirstLine (c :: cs) = if c = '\n' then cs else dropFirstLine cs := rfl

theorem reMatchHeader_cons (c : Char) (rest : List Char) :
    reMatchHeader (c :: rest) = if c = '[' then headerSplit rest else none :=
  rfl

theorem read_mkHolFile {title ws d : List Char} (body : List Char)
    (ht : title ≠ []) (htn : '\n' ∉ title)
    (hws : ∀ c ∈ ws, isWS c = true) (hwsn : '\n' ∉ ws)
    (hd : d ≠ []) (hdig : ∀ c ∈ d, Char.isDigit c = true) :
    read_hol_file (mkHolFile title ws d body)
      = Except.ok (title, splitKeepEnds body) := by
  have hpren : '\n' ∉ title ++ (']' :: (ws ++ d)) := by
    intro m
    rcases List.mem_append.mp m with m1 | m1
    · exact htn m1
    · rcases List.mem_cons.mp m1 with m2 | m2
      · exact absurd m2 (by decide)
      · rcases List.mem_append.mp m2 with m3 | m3
        · exact hwsn m3
        · exact digit_ne_newline (hdig _ m3) rfl
  have hshape : title ++ (']' :: (ws ++ (d ++ ('\n' :: body))))
      = (title ++ (']' :: (ws ++ d))) ++ ('\n' :: body) := by
    simp [List.append_assoc]
  have hfl : firstLine (mkHolFile title ws d body)
      = '[' :: (title ++ (']' :: (ws ++ (d ++ ['\n'])))) := by
    simp only [mkHolFile, firstLine_cons,
      if_neg (by decide : ¬(('[' : Char) = '\n'))]
    rw [hshape, firstLine_append _ hpren]
    simp [List.append_assoc]
  have hdl : dropFirstLine (mkHolFile title ws d body) = body := by
    simp only [mkHolFile, dropFirstLine_cons,
      if_neg (by decide : ¬(('[' : Char) = '\n'))]
    rw [hshape, dropFirstLine_append _ hpren]
  have hm : reMatchHeader (firstLine (mkHolFile title ws d body))
      = some (title, d) := by
    rw [hfl, reMatchHeader_cons, if_pos rfl]
    exact headerSplit_exact [] ht htn hws hd hdig
  unfold read_hol_file
  rw [hm, hdl]

theorem isPrefixOf_append_self (a b : List Char) :
    a.isPrefixOf (a ++ b) = true := by
  induction a with
  | nil => cases b <;> rfl
  | cons c a' ih => simp [List.cons_append, List.isPrefixOf, ih]

theorem sameExcept_cons_eq (l1 l2 : List Char) (r1 r2 : List (List Char)) :
    sameExceptUidDtstamp (l1 :: r1) (l2 :: r2)
      = ((l1 == l2 || uidOrStamp l1 l2) && sameExceptUidDtstamp r1 r2) := rfl

theorem sameExcept_cons {l1 l2 : List Char} {r1 r2 : List (List Char)}
    (h : l1 = l2 ∨ uidOrStamp l1 l2 = true)
    (hr : sameExceptUidDtstamp r1 r2 = true) :
    sameExceptUidDtstamp (l1 :: r1) (l2 :: r2) = true := by
  rw [sameExcept_cons_eq]
  rcases h with h | h
  · subst h; simp [hr]
  · simp [h, hr]

theorem sameExcept_append_left (X : List (List Char))
    {Y1 Y2 : List (List Char)} (h : sameExceptUidDtstamp Y1 Y2 = true) :
    sameExceptUidDtstamp (X ++ Y1) (X ++ Y2) = true := by
  induction X with
  | nil => simpa
  | cons l X' ih =>
    rw [List.cons_append, List.cons_append]
    exact sameExcept_cons (Or.inl rfl) ih

theorem writer_loop_nil (u s : Nat → List Char) (i : Nat) :
    writer_loop u s i [] = ([], Except.ok []) := rfl

theorem writer_loop_cons_err (u s : Nat → List Char) (i : Nat) (e : ConvErr)
    (rest : List (Except ConvErr (List Char × HDate))) :
    writer_loop u s i (Except.error e :: rest)
      = ([Eff.parseRecord], Except.error e) := rfl

theorem writer_loop_cons_ok (u s : Nat → List Char) (i : Nat)
    (name : List Char) (d : HDate)
    (rest : List (Except ConvErr (List Char × HDate))) :
    writer_loop u s i (Except.ok (name, d) :: rest) =
      (Eff.parseRecord :: (writer_loop u s (i + 1) rest).1,
        match (writer_loop u s (i + 1) rest).2 with
        | Except.ok ls => Except.ok (event_lines (u i) (s i) name d ++ ls)
        | Except.error e => Except.error e) := rfl

theorem writer_loop_same :
    ∀ (evs : List (Except ConvErr (List Char × HDate))) (i1 i2 : Nat)
      (u1 s1 u2 s2 : Nat → List Char) (T1 T2 L1 L2 : List (List Char)),
    sameExceptUidDtstamp T1 T2 = true →
    (writer_loop u1 s1 i1 evs).2 = Except.ok L1 →
    (writer_loop u2 s2 i2 evs).2 = Except.ok L2 →
    sameExceptUidDtstamp (L1 ++ T1) (L2 ++ T2) = true := by
  intro evs
  induction evs with
  | nil =>
    intro i1 i2 u1 s1 u2 s2 T1 T2 L1 L2 hT h1 h2
    rw [writer_loop_nil] at h1 h2
    simp only at h1 h2
    injection h1 with h1
    injection h2 with h2
    subst h1
    subst h2
    simpa using hT
  | cons e es ih =>
    intro i1 i2 u1 s1 u2 s2 T1 T2 L1 L2 hT h1 h2
    cases e with
    | error err =>
      rw [writer_loop_cons_err] at h1
      simp only at h1
      exact Except.noConfusion h1
    | ok p =>
      obtain ⟨name, d⟩ := p
      rw [writer_loop_cons_ok] at h1 h2
      simp only at h1 h2
      cases hr1 : (writer_loop u1 s1 (i1 + 1) es).2 with
      | error e1 => rw [hr1] at h1; exact Except.noConfusion h1
      | ok ls1 =>
        cases hr2 : (writer_loop u2 s2 (i2 + 1) es).2 with
        | error e2 => rw [hr2] at h2; exact Except.noConfusion h2
        | ok ls2 =>
          rw [hr1] at h1
          rw [hr2] at h2
          injection h1 with h1
          injection h2 with h2
          subst h1
          subst h2
          have hrec := ih (i1 + 1) (i2 + 1) u1 s1 u2 s2 T1 T2 ls1 ls2
            hT hr1 hr2
          rw [List.append_assoc, List.append_assoc]
          simp only [event_lines, List.cons_append, List.nil_append]
          refine sameExcept_cons (Or.inl rfl) ?_
          refine sameExcept_cons
            (Or.inr (by simp [uidOrStamp, isPrefixOf_append_self])) ?_
          refine sameExcept_cons
            (Or.inr (by simp [uidOrStamp, isPrefixOf_append_self])) ?_
          refine sameExcept_cons (Or.inl rfl) ?_
          refine sameExcept_cons (Or.inl rfl) ?_
          refine sameExcept_cons (Or.inl rfl) ?_
          exact hrec

theorem writer_loop_map_ok (u s : Nat → List Char) :
    ∀ (events : List (List Char × HDate)) (i : Nat),
    writer_loop u s i (events.map Except.ok) =
      (List.replicate events.length Eff.parseRecord,
       Except.ok (((List.enumFrom i events).map
         (fun p => event_lines (u p.1) (s p.1) p.2.1 p.2.2)).flatten)) := by
  intro events
  induction events with
  | nil => intro i; rfl
  | cons e es ih =>
    intro i
    obtain ⟨name, d⟩ := e
    rw [List.map_cons, writer_loop_cons_ok, ih (i + 1)]
    simp [List.replicate_succ, List.enumFrom]

theorem writer_loop_no_open (u s : Nat → List Char) :
    ∀ (evs : List (Except ConvErr (List Char × HDate))) (i : Nat),
    Eff.openDest ∉ (writer_loop u s i evs).1 ∧
      Eff.writeDoc ∉ (writer_loop u s i evs).1 := by
  intro evs
  induction evs with
  | nil => intro i; rw [writer_loop_nil]; simp
  | cons e es ih =>
    intro i
    cases e with
    | error err => rw [writer_loop_cons_err]; simp
    | ok p =>
      obtain ⟨name, d⟩ := p
      rw [writer_loop_cons_ok]
      constructor
      · intro m
        rcases List.mem_cons.mp m with m1 | m1
        · exact Eff.noConfusion m1
        · exact (ih (i + 1)).1 m1
      · intro m
        rcases List.mem_cons.mp m with m1 | m1
        · exact Eff.noConfusion m1
        · exact (ih (i + 1)).2 m1

theorem joinCRLF_append_last :
    ∀ (L : List (List Char)) (x : List Char),
    ∃ pre, joinCRLF (L ++ [x]) = pre ++ x := by
  intro L
  induction L with
  | nil => intro x; exact ⟨[], rfl⟩
  | cons a L' ih =>
    intro x
    obtain ⟨pre, hp⟩ := ih x
    cases hL : L' ++ [x] with
    | nil => exact absurd hL (by simp)
    | cons b t =>
      refine ⟨a ++ CRLF ++ pre, ?_⟩
      rw [List.cons_append, hL]
      show a ++ CRLF ++ joinCRLF (b :: t) = a ++ CRLF ++ pre ++ x
      rw [← hL, hp, List.append_assoc, List.append_assoc, List.append_assoc]

theorem crlf_not_suffix (pre : List Char) :
    CRLF.isSuffixOf (pre ++ str "END:VCALENDAR") = false := by
  unfold List.isSuffixOf
  rw [List.reverse_append]
  rw [show (str "END:VCALENDAR").reverse = str "RADNELACV:DNE" from by decide]
  rw [show CRLF.reverse = ['\n', '\x0d'] from by decide]
  rw [show str "RADNELACV:DNE" = 'R' :: str "ADNELACV:DNE" from by decide]
  have hb : (('\n' : Char) == 'R') = false := by decide
  simp [List.isPrefixOf, List.cons_append, hb]

theorem line_to_event_tuple_eq (line : List Char) :
    line_to_event_tuple line =
      (match splitOnChar ',' line with
       | [day_title, date_str] =>
         (match parseDate (stripWS date_str) with
          | some d => Except.ok (day_title, d)
          | none => Except.error ConvErr.invalidDate)
       | _ => Except.error ConvErr.malformedRecord) := rfl

theorem write_ics_file_eq (u s : Nat → List Char)
    (events : List (Except ConvErr (List Char × HDate))) (title : List Char) :
    write_ics_file u s events title =
      (match (writer_loop u s 0 events).2 with
       | Except.error e => ((writer_loop u s 0 events).1, Except.error e)
       | Except.ok evLines =>
         ((writer_loop u s 0 events).1 ++ [Eff.openDest, Eff.writeDoc],
          Except.ok (calendarHeader title ++ evLines
            ++ [str "END:VCALENDAR"]))) := rfl

theorem convertLines_eq (u s : Nat → List Char) (file : List Char) :
    convertLines u s file =
      (match read_hol_file file with
       | Except.error e => ([], Except.error e)
       | Except.ok (title, recLines) =>
         write_ics_file u s (recLines.map line_to_event_tuple) title) := rfl

theorem convertLines_ok_same {u1 s1 u2 s2 : Nat → List Char}
    {f1 f2 : List Char} {L1 L2 : List (List Char)}
    (hread : read_hol_file f1 = read_hol_file f2)
    (h1 : (convertLines u1 s1 f1).2 = Except.ok L1)
    (h2 : (convertLines u2 s2 f2).2 = Except.ok L2) :
    sameExceptUidDtstamp L1 L2 = true := by
  cases hr : read_hol_file f1 with
  | error e =>
    simp only [convertLines_eq, hr] at h1
    exact Except.noConfusion h1
  | ok p =>
    obtain ⟨title, recLines⟩ := p
    have hr2 : read_hol_file f2 = Except.ok (title, recLines) := by
      rw [← hread, hr]
    simp only [convertLines_eq, hr] at h1
    simp only [convertLines_eq, hr2] at h2
    rw [write_ics_file_eq] at h1 h2
    cases hw1 : (writer_loop u1 s1 0 (recLines.map line_to_event_tuple)).2 with
    | error e1 => rw [hw1] at h1; exact Except.noConfusion h1
    | ok ls1 =>
      cases hw2 :
          (writer_loop u2 s2 0 (recLines.map line_to_event_tuple)).2 with
      | error e2 => rw [hw2] at h2; exact Except.noConfusion h2
      | ok ls2 =>
        rw [hw1] at h1
        rw [hw2] at h2
        simp only at h1 h2
        injection h1 with h1
        injection h2 with h2
        subst h1
        subst h2
        rw [List.append_assoc, List.append_assoc]
        apply sameExcept_append_left
        exact writer_loop_same _ 0 0 u1 s1 u2 s2
          [str "END:VCALENDAR"] [str "END:VCALENDAR"] ls1 ls2
          (sameExcept_cons (Or.inl rfl) rfl) hw1 hw2

set_option maxRecDepth 16384 in
/-- C1: for every calendar title and record sequence the writer emits
exactly `BEGIN:VCALENDAR`, `VERSION:2.0`, the PRODID line embedding the
title between the double-slash markers, one VEVENT block per record in
input order (with `DTSTART;VALUE=DATE:` as YYYYMMDD and `SUMMARY:`
carrying the raw title), then `END:VCALENDAR`, all joined by CRLF with
no trailing CRLF; and the end-to-end example with header `[Test] 2` and
lines `A,2024/01/01`, `B,2024/12/31` yields two VEVENT blocks in that
order with DTSTART values 20240101 and 20241231 and a PRODID containing
`Test`. -/
theorem writer_document_structure_and_example :
    (∀ (u s : Nat → List Char) (title : List Char)
        (events : List (List Char × HDate)),
      (write_ics_file u s (events.map Except.ok) title).2
        = Except.ok (icsSpecLines u s events title)) ∧
    (∀ (u s : Nat → List Char) (title : List Char)
        (events : List (List Char × HDate)),
      ∃ pre, joinCRLF (icsSpecLines u s events title)
        = pre ++ str "END:VCALENDAR") ∧
    (∀ (u s : Nat → List Char) (title : List Char)
        (events : List (List Char × HDate)),
      CRLF.isSuffixOf (joinCRLF (icsSpecLines u s events title)) = false) ∧
    (convert exU exS exFile).2 = Except.ok (joinCRLF exLinesA) ∧
    (exLinesA.filter (fun l => l == str "BEGIN:VEVENT")).length = 2 ∧
    exLinesA.filter (fun l => (str "DTSTART").isPrefixOf l)
      = [str "DTSTART;VALUE=DATE:20240101",
         str "DTSTART;VALUE=DATE:20241231"] ∧
    exLinesA.filter (fun l => (str "PRODID").isPrefixOf l)
      = [str "PRODID:-//Test//EN"] ∧
    containsSub (str "Test") (str "PRODID:-//Test//EN") = true := by
  refine ⟨?_, ?_, ?_, by decide, by decide, by decide, by decide, by decide⟩
  · intro u s title events
    rw [write_ics_file_eq, writer_loop_map_ok u s events 0]
    simp [icsSpecLines, calendarHeader]
  · intro u s title events
    simp only [icsSpecLines]
    exact joinCRLF_append_last _ _
  · intro u s title events
    obtain ⟨pre, hp⟩ := joinCRLF_append_last
      ([str "BEGIN:VCALENDAR", str "VERSION:2.0",
        str "PRODID:-//" ++ title ++ str "//EN"]
        ++ ((List.enumFrom 0 events).map
              (fun p => event_lines (u p.1) (s p.1) p.2.1 p.2.2)).flatten)
      (str "END:VCALENDAR")
    simp only [icsSpecLines]
    rw [hp]
    exact crlf_not_suffix pre

/-- C2 counterexample: a record line with a second comma does not split
at the first comma; the tuple unpacking fails instead, so the result is
`MalformedRecordError` and not the `InvalidDateError` that parsing the
remainder `2024/01/01,junk` as a date would give. -/
theorem record_split_first_comma_counterexample :
    line_to_event_tuple (str "A,2024/01/01,junk")
        = Except.error ConvErr.malformedRecord ∧
      line_to_event_tuple (str "A,2024/01/01,junk")
        ≠ Except.error ConvErr.invalidDate := by decide

/-- C2 (amended): record parsing requires exactly one comma: a line
whose comma count differs from one (no comma, or additional commas
after the first) fails with `MalformedRecordError`; a line with exactly
one comma is split there and never raises `MalformedRecordError`. -/
theorem record_split_requires_exactly_one_comma (line : List Char) :
    (line.count ',' ≠ 1 →
      line_to_event_tuple line = Except.error ConvErr.malformedRecord) ∧
    (∀ a b, line = a ++ ',' :: b → ',' ∉ a → ',' ∉ b →
      line_to_event_tuple line ≠ Except.error ConvErr.malformedRecord) := by
  constructor
  · intro h
    have hl := length_splitOnChar ',' line
    cases h1 : splitOnChar ',' line with
    | nil => exact absurd h1 (splitOnChar_ne_nil ',' line)
    | cons a t =>
      cases t with
      | nil => rw [line_to_event_tuple_eq, h1]
      | cons b t2 =>
        cases t2 with
        | nil =>
          rw [h1] at hl
          simp only [List.length_cons, List.length_nil] at hl
          exact absurd (by omega) h
        | cons c t3 => rw [line_to_event_tuple_eq, h1]
  · intro a b he hna hnb
    have hsplit : splitOnChar ',' line = [a, b] := by
      rw [he, splitOnChar_first b hna, splitOnChar_no_sep hnb]
    have hval : line_to_event_tuple line =
        (match parseDate (stripWS b) with
         | some d => Except.ok (a, d)
         | none => Except.error ConvErr.invalidDate) := by
      rw [line_to_event_tuple_eq, hsplit]
    rw [hval]
    cases h2 : parseDate (stripWS b) with
    | some d => simp
    | none => simp

/-- C2 witness: the amended theorem applied at the concrete
three-fragment line. -/
theorem record_split_requires_exactly_one_comma_witness :
    line_to_event_tuple (str "A,B,C")
      = Except.error ConvErr.malformedRecord :=
  (record_split_requires_exactly_one_comma (str "A,B,C")).1 (by decide)

/-- C5: for a line with a single comma the date fragment is stripped of
surrounding whitespace before date parsing while the title fragment is
passed through untrimmed, and the line `New Year's Day,2024/01/01`
yields the record `(New Year's Day, 2024-01-01)`. -/
theorem record_title_untrimmed_date_trimmed :
    (∀ (t ds : List Char) (d : HDate), ',' ∉ t → ',' ∉ ds →
      parseDate (stripWS ds) = some d →
      line_to_event_tuple (t ++ ',' :: ds) = Except.ok (t, d)) ∧
    line_to_event_tuple
        (str "New Year" ++ Char.ofNat 39 :: str "s Day,2024/01/01")
      = Except.ok (str "New Year" ++ Char.ofNat 39 :: str "s Day",
          ⟨2024, 1, 1⟩) := by
  constructor
  · intro t ds d hnt hnd hpd
    have hsplit : splitOnChar ',' (t ++ ',' :: ds) = [t, ds] := by
      rw [splitOnChar_first ds hnt, splitOnChar_no_sep hnd]
    have hval : line_to_event_tuple (t ++ ',' :: ds) =
        (match parseDate (stripWS ds) with
         | some x => Except.ok (t, x)
         | none => Except.error ConvErr.invalidDate) := by
      rw [line_to_event_tuple_eq, hsplit]
    rw [hval, hpd]
  · decide

/-- C5 witness: the general statement applied at a line whose date
fragment carries surrounding whitespace. -/
theorem record_title_untrimmed_date_trimmed_witness :
    line_to_event_tuple (str "X, 2024/01/01 ")
      = Except.ok (str "X", ⟨2024, 1, 1⟩) :=
  record_title_untrimmed_date_trimmed.1 (str "X") (str " 2024/01/01 ")
    ⟨2024, 1, 1⟩ (by decide) (by decide) (by decide)

/-- C3 as the code behaves: when an explicit destination is given, the
extension check inspects the source path's suffix against `.ics`, so
with a `.hol` source every explicitly given destination is rejected
with the destination-extension error message, even one ending in
`.ics`; without an explicit destination the path is derived by
replacing the source extension with `.ics`. -/
theorem destination_check_inspects_source_suffix :
    main_destination ⟨str "cal", str ".hol"⟩ (some ⟨str "out", str ".ics"⟩)
      = Except.error
          (str "Destination file has to end with the ics extension") ∧
    (PathM.mk (str "out") (str ".ics")).ext = str ".ics" ∧
    (∀ (stem : List Char) (dest : PathM),
      main_destination ⟨stem, str ".hol"⟩ (some dest)
        = Except.error
            (str "Destination file has to end with the ics extension")) ∧
    (∀ stem : List Char,
      main_destination ⟨stem, str ".hol"⟩ none
        = Except.ok ⟨stem, str ".ics"⟩) := by
  refine ⟨by decide, by decide, ?_, ?_⟩
  · intro stem dest; rfl
  · intro stem; rfl

/-- C4 counterexample: at a source file whose last record line is
malformed, the conversion stops at the failing parse without ever
opening the destination, so no truncated destination file content is
produced. -/
theorem destination_never_opened_counterexample :
    (convertLines exU exS (str "[T] 2\nA,2024/01/01\nBAD")).1
        = [Eff.parseRecord, Eff.parseRecord] ∧
    Eff.openDest ∉
      (convertLines exU exS (str "[T] 2\nA,2024/01/01\nBAD")).1 ∧
    (convertLines exU exS (str "[T] 2\nA,2024/01/01\nBAD")).2
        = Except.error ConvErr.malformedRecord := by decide

/-- C4 (amended): record parsing is lazy (records are parsed one by one
as the writer loop consumes them), but the writer accumulates the whole
document in memory and opens the destination only after the loop; when
the conversion fails on any record, no destination-open and no write
effect occurs, so a malformed record cannot leave a truncated
destination file. -/
theorem no_destination_open_on_error
    (u s : Nat → List Char) (file : List Char) (e : ConvErr)
    (h : (convertLines u s file).2 = Except.error e) :
    Eff.openDest ∉ (convertLines u s file).1 ∧
      Eff.writeDoc ∉ (convertLines u s file).1 := by
  cases hr : read_hol_file file with
  | error e2 =>
    simp only [convertLines_eq, hr]
    simp
  | ok p =>
    obtain ⟨title, recLines⟩ := p
    simp only [convertLines_eq, hr] at h ⊢
    rw [write_ics_file_eq] at h
    cases hw : (writer_loop u s 0 (recLines.map line_to_event_tuple)).2 with
    | ok ls =>
      rw [hw] at h
      simp only at h
      exact Except.noConfusion h
    | error e3 =>
      rw [write_ics_file_eq, hw]
      exact writer_loop_no_open u s _ 0

/-- C4 witness: the amended theorem applied at a concrete file with a
malformed record. -/
theorem no_destination_open_on_error_witness :
    Eff.openDest ∉ (convertLines exU exS (str "[T] 1\nBAD")).1 ∧
      Eff.writeDoc ∉ (convertLines exU exS (str "[T] 1\nBAD")).1 :=
  no_destination_open_on_error exU exS (str "[T] 1\nBAD")
    ConvErr.malformedRecord (by decide)

/-- C6: the header `[Holidays 2024] 12` followed by a newline parses to
title `Holidays 2024` and count `12`, and the extracted count has no
effect on any downstream computation: converting two files that differ
only in the header's count digits gives identical effect traces and
outputs. -/
theorem header_extraction_and_count_unused :
    reMatchHeader (str "[Holidays 2024] 12\n")
      = some (str "Holidays 2024", str "12") ∧
    (∀ (title ws d1 d2 body : List Char) (u s : Nat → List Char),
      title ≠ [] → '\n' ∉ title →
      (∀ c ∈ ws, isWS c = true) → '\n' ∉ ws →
      d1 ≠ [] → (∀ c ∈ d1, Char.isDigit c = true) →
      d2 ≠ [] → (∀ c ∈ d2, Char.isDigit c = true) →
      convertLines u s (mkHolFile title ws d1 body)
        = convertLines u s (mkHolFile title ws d2 body)) := by
  refine ⟨by decide, ?_⟩
  intro title ws d1 d2 body u s ht htn hws hwsn hd1 hdig1 hd2 hdig2
  rw [convertLines_eq, convertLines_eq,
    read_mkHolFile body ht htn hws hwsn hd1 hdig1,
    read_mkHolFile body ht htn hws hwsn hd2 hdig2]

/-- C6 witness: the count-independence statement applied at concrete
files with counts 7 and 123. -/
theorem header_extraction_and_count_unused_witness :
    convertLines exU exS
        (mkHolFile (str "T") (str " ") (str "7") (str "A,2024/01/01"))
      = convertLines exU exS
          (mkHolFile (str "T") (str " ") (str "123") (str "A,2024/01/01")) :=
  header_extraction_and_count_unused.2 (str "T") (str " ") (str "7")
    (str "123") (str "A,2024/01/01") exU exS (by decide) (by decide)
    (by decide) (by decide) (by decide) (by decide) (by decide) (by decide)

/-- C7 counterexample: on the bracket-less first line the source raises
its generic value error with a fixed message; the offending line (with
or without its newline) is not contained in that message. -/
theorem malformed_header_message_counterexample :
    read_hol_file (str "Holidays 2024 12\n")
        = Except.error (ConvErr.malformedHeader headerErrorMsg) ∧
      containsSub (str "Holidays 2024 12\n") headerErrorMsg = false ∧
      containsSub (str "Holidays 2024 12") headerErrorMsg = false := by
  decide

/-- C7 (amended): any file whose first line fails the header pattern is
rejected with the generic value error whose message is the fixed string
`Unable to find header in given hol file`; the message does not carry
the offending line. -/
theorem malformed_header_fixed_message
    (file : List Char)
    (h : reMatchHeader (firstLine file) = none) :
    read_hol_file file
      = Except.error (ConvErr.malformedHeader headerErrorMsg) := by
  unfold read_hol_file
  rw [h]

/-- C7 witness: the amended theorem applied at a concrete header-less
file. -/
theorem malformed_header_fixed_message_witness :
    read_hol_file (str "no header here")
      = Except.error (ConvErr.malformedHeader headerErrorMsg) :=
  malformed_header_fixed_message (str "no header here") (by decide)

/-- C8: two source files that differ only in the header's decimal count
digits convert, in any pair of runs, to line lists that agree
everywhere except the UID and DTSTAMP fields; the count is never
cross-checked against the record lines (the body is arbitrary) and has
no effect on the output. -/
theorem count_digits_no_effect_on_output
    (title ws d1 d2 body : List Char) (u1 s1 u2 s2 : Nat → List Char)
    (L1 L2 : List (List Char))
    (ht : title ≠ []) (htn : '\n' ∉ title)
    (hws : ∀ c ∈ ws, isWS c = true) (hwsn : '\n' ∉ ws)
    (hd1 : d1 ≠ []) (hdig1 : ∀ c ∈ d1, Char.isDigit c = true)
    (hd2 : d2 ≠ []) (hdig2 : ∀ c ∈ d2, Char.isDigit c = true)
    (h1 : (convertLines u1 s1 (mkHolFile title ws d1 body)).2
        = Except.ok L1)
    (h2 : (convertLines u2 s2 (mkHolFile title ws d2 body)).2
        = Except.ok L2) :
    sameExceptUidDtstamp L1 L2 = true :=
  convertLines_ok_same
    (by rw [read_mkHolFile body ht htn hws hwsn hd1 hdig1,
      read_mkHolFile body ht htn hws hwsn hd2 hdig2]) h1 h2

/-- C8 witness: the theorem applied at concrete files with counts 7 and
123 and one record line. -/
theorem count_digits_no_effect_on_output_witness :
    (convertLines exU exS
        (mkHolFile (str "T") (str " ") (str "7") (str "A,2024/01/01"))).2
      = Except.ok exCountLinesA ∧
    (convertLines exU2 exS2
        (mkHolFile (str "T") (str " ") (str "123") (str "A,2024/01/01"))).2
      = Except.ok exCountLinesB ∧
    sameExceptUidDtstamp exCountLinesA exCountLinesB = true :=
  ⟨by decide, by decide,
   count_digits_no_effect_on_output (str "T") (str " ") (str "7")
     (str "123") (str "A,2024/01/01") exU exS exU2 exS2
     exCountLinesA exCountLinesB (by decide) (by decide) (by decide)
     (by decide) (by decide) (by decide) (by decide) (by decide)
     (by decide) (by decide)⟩

/-- C9: two runs on the same source file that both succeed produce line
lists that agree line for line except that corresponding UID lines and
corresponding DTSTAMP lines may differ; nothing else depends on
run-varying state. -/
theorem runs_differ_only_in_uid_dtstamp
    (u1 s1 u2 s2 : Nat → List Char) (file : List Char)
    (L1 L2 : List (List Char))
    (h1 : (convertLines u1 s1 file).2 = Except.ok L1)
    (h2 : (convertLines u2 s2 file).2 = Except.ok L2) :
    sameExceptUidDtstamp L1 L2 = true :=
  convertLines_ok_same rfl h1 h2

/-- C9 witness: the theorem applied to two runs, with distinct uuid and
clock oracles, on the end-to-end example file. -/
theorem runs_differ_only_in_uid_dtstamp_witness :
    (convertLines exU exS exFile).2 = Except.ok exLinesA ∧
    (convertLines exU2 exS2 exFile).2 = Except.ok exLinesB ∧
    sameExceptUidDtstamp exLinesA exLinesB = true :=
  ⟨by decide, by decide,
   runs_differ_only_in_uid_dtstamp exU exS exU2 exS2 exFile exLinesA
     exLinesB (by decide) (by decide)⟩

/-- C10: header matching is prefix-based and greedy: any first line
made of an opening bracket, a non-empty newline-free title, a closing
bracket, whitespace, at least one digit and then arbitrary junk is
accepted; the example with trailing junk is accepted with count 12; the
extracted title is at least as long as the title of any decomposition
whose closing bracket is followed by optional whitespace and a digit,
so it extends to the last such bracket, as the bracket-in-title example
shows. -/
theorem header_match_greedy_and_trailing_junk :
    (∀ (t ws d junk : List Char),
      t ≠ [] → '\n' ∉ t → (∀ c ∈ ws, isWS c = true) →
      d ≠ [] → (∀ c ∈ d, Char.isDigit c = true) →
      (reMatchHeader ('[' :: (t ++ (']' :: (ws ++ (d ++ junk)))))).isSome
        = true) ∧
    reMatchHeader (str "[T] 12 trailing junk\n")
      = some (str "T", str "12") ∧
    (∀ (l t c : List Char), reMatchHeader l = some (t, c) →
      ∀ (t2 tail2 : List Char), l = '[' :: (t2 ++ (']' :: tail2)) →
        t2 ≠ [] → '\n' ∉ t2 →
        (tailMatch (']' :: tail2)).isSome = true →
        t2.length ≤ t.length) ∧
    reMatchHeader (str "[a] 1] 2\n") = some (str "a] 1", str "2") := by
  refine ⟨?_, by decide, ?_, by decide⟩
  · intro t ws d junk ht htn hws hd hdig
    rw [reMatchHeader_cons, if_pos rfl]
    exact headerSplit_isSome _ ht htn (tailMatch_isSome junk hws hd hdig)
  · intro l t c h t2 tail2 he h2ne h2n ht2
    subst he
    rw [reMatchHeader_cons, if_pos rfl] at h
    exact headerSplit_maximal h t2 tail2 rfl h2ne h2n ht2

/-- C10 witness: the acceptance statement applied at a concrete header
line with junk (containing brackets and a digit) after the count. -/
theorem header_match_greedy_witness :
    (reMatchHeader ('[' :: (str "XY" ++ (']' :: (str " " ++
        (str "34" ++ str " junk]]7\n")))))).isSome = true :=
  header_match_greedy_and_trailing_junk.1 (str "XY") (str " ") (str "34")
    (str " junk]]7\n") (by decide) (by decide) (by decide) (by decide)
    (by decide)

end Hol2Ics
